import Mathlib

/-!
Shallow embedding of `server/verify.go` from go-tpm-tools: the remote
attestation verifier `VerifyAttestation` together with its helpers
`supportedQuotes`, `checkAkTrusted`, `checkHashAlgSupported` and
`pubKeysEqual`.  External collaborators (TPM public-area decoding,
single-quote verification, event-log replay) are modelled as an explicit
capability record, since the Go code consumes them as opaque functions
returning a value or an error.  Go's `(value, error)` pair returned by
`VerifyAttestation` is modelled literally as `Option MachineState × Option
VError`; external capabilities are modelled as `Except`, matching their
contract of returning either a value or an error.
-/

namespace Verify

/-- TPM algorithm identifiers (`tpm2.Algorithm`, a `uint16`). -/
abbrev Algorithm := Nat

/-- Algorithm identifier, value of tpm2.AlgSHA256 = 0x000B. -/
def AlgSHA256 : Algorithm := 0x000B

/-- Algorithm identifier, value of tpm2.AlgSHA384 = 0x000C. -/
def AlgSHA384 : Algorithm := 0x000C

/-- Algorithm identifier, value of tpm2.AlgSHA512 = 0x000D. -/
def AlgSHA512 : Algorithm := 0x000D

/-- The hash algorithms the verifier supports, in preferred order of use
(`var supportedHashAlgs = []tpm2.Algorithm{tpm2.AlgSHA512, tpm2.AlgSHA384,
tpm2.AlgSHA256}`). -/
def supportedHashAlgs : List Algorithm := [AlgSHA512, AlgSHA384, AlgSHA256]

/-- A PCR bank (`tpmpb.PCRs`): a hash-algorithm identifier plus a map from
PCR index to digest bytes. -/
structure PCRs where
  hash : Algorithm
  pcrs : List (Nat × List Nat)
deriving DecidableEq

/-- Proto getter `pcrs.GetHash()`. -/
def PCRs.getHash (p : PCRs) : Algorithm := p.hash

/-- One quote (`tpmpb.Quote`): raw quote data, raw signature and the PCR
bank it was taken over. -/
structure Quote where
  quote : List Nat
  rawSig : List Nat
  pcrs : PCRs
deriving DecidableEq

/-- Proto getter `quote.GetPcrs()`. -/
def Quote.getPcrs (q : Quote) : PCRs := q.pcrs

/-- The top-level attestation (`pb.Attestation`): encoded AK public area,
the list of quotes (one per digest algorithm the attester supports) and the
raw event log. -/
structure Attestation where
  akPub : List Nat
  quotes : List Quote
  eventLog : List Nat
deriving DecidableEq

/-- Public keys as compared by `pubKeysEqual`: RSA (modulus, exponent),
ECDSA (curve identifier, point coordinates), or some other key family the
verifier does not know. -/
inductive PublicKey where
  | rsa (n : Nat) (e : Nat)
  | ecdsa (curve : Nat) (x : Int) (y : Int)
  | other (tag : Nat)
deriving DecidableEq

/-- Model of `rsa.PublicKey.Equal` from the Go standard library: true exactly when
the other key is also RSA with the same modulus and exponent. -/
def rsaPublicKeyEqual (n e : Nat) (k2 : PublicKey) : Bool :=
  match k2 with
  | .rsa n2 e2 => n == n2 && e == e2
  | _ => false

/-- Model of `ecdsa.PublicKey.Equal` from the Go standard library: true exactly when
the other key is also ECDSA on the same curve with the same point. -/
def ecdsaPublicKeyEqual (c : Nat) (x y : Int) (k2 : PublicKey) : Bool :=
  match k2 with
  | .ecdsa c2 x2 y2 => c == c2 && x == x2 && y == y2
  | _ => false

/-- The `VerifyOpts` record: the caller's freshness nonce and the set of trusted AK
public keys. -/
structure VerifyOpts where
  nonce : List Nat
  trustedAKs : List PublicKey

/-- The verified machine state produced by event-log replay; opaque to this
core. -/
structure MachineState where
  raw : Nat
deriving DecidableEq

/-- The error produced by `checkHashAlgSupported`
(`unsupported hash algorithm: %v`). -/
inductive HashAlgError where
  | unsupportedHashAlgorithm (alg : Algorithm)
deriving DecidableEq

/-- The errors `VerifyAttestation` can return, one constructor per `return
nil, err` site; wrapped external errors carry the wrapped error as a
payload. -/
inductive VError where
  | failedToDecodeAkPublicArea (e : Nat)
  | failedToGetAkPublicKey (e : Nat)
  | noMechanismForAkVerification
  | akPublicKeyNotTrusted
  | badAkPublicArea (e : Nat)
  | inAkPublicArea (e : HashAlgError)
  | failedToVerifyQuote (e : Nat)
  | failedToValidateEventLog (e : Nat)
  | whenVerifyingPcrs (e : HashAlgError)
  | noSupportedQuote
deriving DecidableEq

/-- The external collaborators consumed by `VerifyAttestation`:
`tpm2.DecodePublic`, `Public.Key`, `internal.GetSigningHashAlg`,
`internal.VerifyQuote` and `ParseAndReplayEventLog`.  Each returns a value
or an error, per its contract; error payloads are opaque naturals. -/
structure Capabilities where
  decodePublic : List Nat → Except Nat Nat
  pubAreaKey : Nat → Except Nat PublicKey
  getSigningHashAlg : Nat → Except Nat Algorithm
  verifyQuote : Quote → PublicKey → List Nat → Except Nat Unit
  parseAndReplayEventLog : List Nat → PCRs → Except Nat MachineState

/-- Function `pubKeysEqual`: type-switch on the first key; RSA and ECDSA dispatch to
the standard library `Equal`, any other key family compares unequal to
everything. -/
def pubKeysEqual (k1 k2 : PublicKey) : Bool :=
  match k1 with
  | .rsa n e => rsaPublicKeyEqual n e k2
  | .ecdsa c x y => ecdsaPublicKeyEqual c x y k2
  | .other _ => false

/-- Function `checkAkTrusted`: error when the trusted set is empty, otherwise
success exactly when some trusted key equals the AK. -/
def checkAkTrusted (ak : PublicKey) (opts : VerifyOpts) : Except VError Unit :=
  if opts.trustedAKs.length = 0 then
    .error .noMechanismForAkVerification
  else
    match opts.trustedAKs.any (fun trusted => pubKeysEqual ak trusted) with
    | true => .ok ()
    | false => .error .akPublicKeyNotTrusted

/-- Function `checkHashAlgSupported`: success exactly when the algorithm occurs in
`supportedHashAlgs`; the `opts` argument is taken but never used, as in the
Go code. -/
def checkHashAlgSupported (h : Algorithm) (opts : VerifyOpts) : Except HashAlgError Unit :=
  match supportedHashAlgs.any (fun alg => h == alg) with
  | true => .ok ()
  | false => .error (.unsupportedHashAlgorithm h)

/-- Function `supportedQuotes`: for each supported algorithm in preference order,
scan the input for the first quote whose PCR bank uses that algorithm
(inner loop with `break`) and append it. -/
def supportedQuotes (quotes : List Quote) : List Quote :=
  supportedHashAlgs.foldl
    (fun out alg =>
      match quotes.find? (fun quote => quote.getPcrs.getHash == alg) with
      | some q => out ++ [q]
      | none => out)
    []

/-- The candidate loop of `VerifyAttestation` (its `for _, quote := range
supportedQuotes(...)` body), with the `lastErr` variable passed explicitly.
After the loop: the last recorded error if any, else the distinct
`attestation does not contain a supported quote` error. -/
def verifyLoop (caps : Capabilities) (akPubKey : PublicKey) (opts : VerifyOpts)
    (eventLog : List Nat) : List Quote → Option VError → Option MachineState × Option VError
  | [], lastErr =>
    match lastErr with
    | some e => (none, some e)
    | none => (none, some .noSupportedQuote)
  | quote :: rest, lastErr =>
    match caps.verifyQuote quote akPubKey opts.nonce with
    | .error e =>
      verifyLoop caps akPubKey opts eventLog rest (some (.failedToVerifyQuote e))
    | .ok _ =>
      match caps.parseAndReplayEventLog eventLog quote.getPcrs with
      | .error e =>
        verifyLoop caps akPubKey opts eventLog rest (some (.failedToValidateEventLog e))
      | .ok state =>
        match checkHashAlgSupported quote.getPcrs.getHash opts with
        | .error e => (none, some (.whenVerifyingPcrs e))
        | .ok _ => (some state, none)

/-- Function `VerifyAttestation`: decode and trust-check the AK, check its signing
hash algorithm, then try each supported quote in preference order. -/
def VerifyAttestation (caps : Capabilities) (attestation : Attestation)
    (opts : VerifyOpts) : Option MachineState × Option VError :=
  match caps.decodePublic attestation.akPub with
  | .error e => (none, some (.failedToDecodeAkPublicArea e))
  | .ok akPubArea =>
    match caps.pubAreaKey akPubArea with
    | .error e => (none, some (.failedToGetAkPublicKey e))
    | .ok akPubKey =>
      match checkAkTrusted akPubKey opts with
      | .error e => (none, some e)
      | .ok _ =>
        match caps.getSigningHashAlg akPubArea with
        | .error e => (none, some (.badAkPublicArea e))
        | .ok signHashAlg =>
          match checkHashAlgSupported signHashAlg opts with
          | .error e => (none, some (.inAkPublicArea e))
          | .ok _ =>
            verifyLoop caps akPubKey opts attestation.eventLog
              (supportedQuotes attestation.quotes) none

/-- The error the candidate loop records for a quote when that quote
soft-fails (quote verification or log replay fails); `none` when the quote
passes both. -/
def quoteSoftError (caps : Capabilities) (ak : PublicKey) (opts : VerifyOpts)
    (log : List Nat) (q : Quote) : Option VError :=
  match caps.verifyQuote q ak opts.nonce with
  | .error e => some (.failedToVerifyQuote e)
  | .ok _ =>
    match caps.parseAndReplayEventLog log q.getPcrs with
    | .error e => some (.failedToValidateEventLog e)
    | .ok _ => none

/-- The quote selector as the specification words it: for each algorithm in
the policy's preference order, the first input quote whose PCR-bank
algorithm matches it, skipping algorithms with no match.  Stated separately
from `supportedQuotes` so that the two can be proved equal. -/
def selectQuotesPerSpec (quotes : List Quote) : List Quote :=
  supportedHashAlgs.filterMap
    (fun alg => quotes.find? (fun q => q.getPcrs.getHash == alg))

/-! Concrete sample data used by the witness theorems. -/

/-- A PCR bank using TPM_ALG_SHA1 (value 4), which the policy rejects. -/
def sha1Pcrs : PCRs := ⟨4, [(0, [1])]⟩

/-- A quote over the SHA1 bank. -/
def sha1Quote : Quote := ⟨[10], [20], sha1Pcrs⟩

/-- A PCR bank using SHA-256. -/
def sha256Pcrs : PCRs := ⟨AlgSHA256, [(0, [2])]⟩

/-- A quote over the SHA-256 bank. -/
def sha256Quote : Quote := ⟨[11], [21], sha256Pcrs⟩

/-- A PCR bank using SHA-384. -/
def sha384Pcrs : PCRs := ⟨AlgSHA384, [(0, [3])]⟩

/-- A quote over the SHA-384 bank. -/
def sha384Quote : Quote := ⟨[12], [22], sha384Pcrs⟩

/-- A PCR bank using SHA-512. -/
def sha512Pcrs : PCRs := ⟨AlgSHA512, [(0, [4])]⟩

/-- A quote over the SHA-512 bank. -/
def sha512Quote : Quote := ⟨[13], [23], sha512Pcrs⟩

/-- Options trusting one RSA key. -/
def demoOpts : VerifyOpts := ⟨[9], [.rsa 5 3]⟩

/-- Options with an empty trusted-key set. -/
def emptyTrustOpts : VerifyOpts := ⟨[9], []⟩

/-- Options trusting a single RSA key different from the presented AK. -/
def otherTrustOpts : VerifyOpts := ⟨[9], [.rsa 7 7]⟩

/-- An attestation with no quotes. -/
def attNoQuotes : Attestation := ⟨[1, 2], [], [3]⟩

/-- An attestation carrying a SHA-256 quote and a SHA-512 quote. -/
def attTwoQuotes : Attestation := ⟨[1, 2], [sha256Quote, sha512Quote], [3]⟩

/-- Capabilities whose external checks all succeed, decoding the AK to an
RSA key with modulus 5 and exponent 3 and signing hash SHA-256. -/
def okCaps : Capabilities where
  decodePublic := fun _ => .ok 0
  pubAreaKey := fun _ => .ok (.rsa 5 3)
  getSigningHashAlg := fun _ => .ok AlgSHA256
  verifyQuote := fun _ _ _ => .ok ()
  parseAndReplayEventLog := fun _ _ => .ok ⟨1⟩

/-- Capabilities whose public-area decoding fails with error 7. -/
def failDecodeCaps : Capabilities where
  decodePublic := fun _ => .error 7
  pubAreaKey := fun _ => .ok (.rsa 5 3)
  getSigningHashAlg := fun _ => .ok AlgSHA256
  verifyQuote := fun _ _ _ => .ok ()
  parseAndReplayEventLog := fun _ _ => .ok ⟨1⟩

/-- Capabilities deriving an unsupported signing hash algorithm (SHA1). -/
def sha1SignCaps : Capabilities where
  decodePublic := fun _ => .ok 0
  pubAreaKey := fun _ => .ok (.rsa 5 3)
  getSigningHashAlg := fun _ => .ok 4
  verifyQuote := fun _ _ _ => .ok ()
  parseAndReplayEventLog := fun _ _ => .ok ⟨1⟩

/-- Capabilities under which a SHA-512 quote fails verification, a SHA-384
quote fails log replay, and any other quote fully verifies. -/
def mixedCaps : Capabilities where
  decodePublic := fun _ => .ok 0
  pubAreaKey := fun _ => .ok (.rsa 5 3)
  getSigningHashAlg := fun _ => .ok AlgSHA256
  verifyQuote := fun q _ _ =>
    match q.getPcrs.getHash == AlgSHA512 with
    | true => .error 3
    | false => .ok ()
  parseAndReplayEventLog := fun _ p =>
    match p.getHash == AlgSHA384 with
    | true => .error 5
    | false => .ok ⟨2⟩

/-- Capabilities under which every quote fails verification, with the
quote's own PCR hash identifier as the error payload. -/
def allFailCaps : Capabilities where
  decodePublic := fun _ => .ok 0
  pubAreaKey := fun _ => .ok (.rsa 5 3)
  getSigningHashAlg := fun _ => .ok AlgSHA256
  verifyQuote := fun q _ _ => .error q.getPcrs.getHash
  parseAndReplayEventLog := fun _ _ => .ok ⟨1⟩

/-! Helper lemmas. -/

/-- Success of the hash-algorithm policy check is membership in
`supportedHashAlgs`. -/
theorem checkHashAlgSupported_ok_iff (h : Algorithm) (opts : VerifyOpts) :
    checkHashAlgSupported h opts = .ok () ↔ h ∈ supportedHashAlgs := by
  unfold checkHashAlgSupported
  cases hb : supportedHashAlgs.any (fun alg => h == alg) with
  | false =>
    simp only [List.any_eq_false, beq_iff_eq] at hb
    simp only [reduceCtorEq, false_iff]
    intro hmem
    exact hb h hmem rfl
  | true =>
    simp only [List.any_eq_true, beq_iff_eq] at hb
    obtain ⟨a, ha, rfl⟩ := hb
    simp [ha]

/-- An algorithm outside `supportedHashAlgs` makes the policy check fail
with the unsupported-algorithm error. -/
theorem checkHashAlgSupported_not_mem (h : Algorithm) (opts : VerifyOpts)
    (hne : h ∉ supportedHashAlgs) :
    checkHashAlgSupported h opts = .error (.unsupportedHashAlgorithm h) := by
  unfold checkHashAlgSupported
  cases hb : supportedHashAlgs.any (fun alg => h == alg) with
  | false => rfl
  | true =>
    simp only [List.any_eq_true, beq_iff_eq] at hb
    obtain ⟨a, ha, rfl⟩ := hb
    exact absurd ha hne

/-- With an empty trusted-key set, `checkAkTrusted` fails with the
no-mechanism error for every presented key. -/
theorem checkAkTrusted_empty (ak : PublicKey) (opts : VerifyOpts)
    (hempty : opts.trustedAKs = []) :
    checkAkTrusted ak opts = .error .noMechanismForAkVerification := by
  unfold checkAkTrusted
  simp [hempty]

/-- When the presented key equals no trusted key, `checkAkTrusted` fails
with the no-mechanism error (empty set) or the not-trusted error. -/
theorem checkAkTrusted_all_false (ak : PublicKey) (opts : VerifyOpts)
    (hall : ∀ t ∈ opts.trustedAKs, pubKeysEqual ak t = false) :
    checkAkTrusted ak opts
      = .error (if opts.trustedAKs.length = 0 then .noMechanismForAkVerification
                else .akPublicKeyNotTrusted) := by
  unfold checkAkTrusted
  by_cases hlen : opts.trustedAKs.length = 0
  · simp [hlen]
  · have hany : opts.trustedAKs.any (fun trusted => pubKeysEqual ak trusted) = false := by
      simp only [List.any_eq_false]
      intro t ht
      simp [hall t ht]
    simp [hlen, hany]

/-- Once the four AK-stage checks pass, `VerifyAttestation` is exactly the
candidate loop over the selected quotes with no recorded error. -/
theorem verifyAttestation_reaches_loop (caps : Capabilities) (att : Attestation)
    (opts : VerifyOpts) (area : Nat) (k : PublicKey) (alg : Algorithm)
    (hdec : caps.decodePublic att.akPub = .ok area)
    (hkey : caps.pubAreaKey area = .ok k)
    (htr : checkAkTrusted k opts = .ok ())
    (hsign : caps.getSigningHashAlg area = .ok alg)
    (halg : checkHashAlgSupported alg opts = .ok ()) :
    VerifyAttestation caps att opts
      = verifyLoop caps k opts att.eventLog (supportedQuotes att.quotes) none := by
  simp only [VerifyAttestation, hdec, hkey, htr, hsign, halg]

/-- A quote that soft-fails makes the loop record its error and continue
with the remaining candidates. -/
theorem verifyLoop_soft_step (caps : Capabilities) (ak : PublicKey)
    (opts : VerifyOpts) (log : List Nat) (q : Quote) (rest : List Quote)
    (lastErr : Option VError) (e : VError)
    (hsoft : quoteSoftError caps ak opts log q = some e) :
    verifyLoop caps ak opts log (q :: rest) lastErr
      = verifyLoop caps ak opts log rest (some e) := by
  cases hv : caps.verifyQuote q ak opts.nonce with
  | error e2 =>
    have he : e = .failedToVerifyQuote e2 := by
      simp only [quoteSoftError, hv, Option.some.injEq] at hsoft
      exact hsoft.symm
    subst he
    simp only [verifyLoop, hv]
  | ok u =>
    cases u
    cases hp : caps.parseAndReplayEventLog log q.getPcrs with
    | error e2 =>
      have he : e = .failedToValidateEventLog e2 := by
        simp only [quoteSoftError, hv, hp, Option.some.injEq] at hsoft
        exact hsoft.symm
      subst he
      simp only [verifyLoop, hv, hp]
    | ok st =>
      exfalso
      simp only [quoteSoftError, hv, hp] at hsoft
      exact Option.noConfusion hsoft

/-- If every quote in a candidate list soft-fails, the loop ends having
recorded the last quote's error. -/
theorem verifyLoop_all_soft (caps : Capabilities) (ak : PublicKey)
    (opts : VerifyOpts) (log : List Nat) :
    ∀ (pre : List Quote) (q : Quote) (lastErr : Option VError) (e : VError),
      (∀ p ∈ pre, quoteSoftError caps ak opts log p ≠ none) →
      quoteSoftError caps ak opts log q = some e →
      verifyLoop caps ak opts log (pre ++ [q]) lastErr = (none, some e) := by
  intro pre
  induction pre with
  | nil =>
    intro q lastErr e _ hq
    rw [List.nil_append, verifyLoop_soft_step caps ak opts log q [] lastErr e hq]
    simp only [verifyLoop]
  | cons p pre ih =>
    intro q lastErr e hall hq
    have hp : quoteSoftError caps ak opts log p ≠ none := hall p (by simp)
    cases hps : quoteSoftError caps ak opts log p with
    | none => exact absurd hps hp
    | some ep =>
      rw [List.cons_append, verifyLoop_soft_step caps ak opts log p _ lastErr ep hps]
      exact ih q (some ep) e (fun r hr => hall r (by simp [hr])) hq

/-- With a recorded error that is not the no-supported-quote error, the
loop can never return the no-supported-quote error. -/
theorem verifyLoop_some_ne (caps : Capabilities) (ak : PublicKey)
    (opts : VerifyOpts) (log : List Nat) :
    ∀ (l : List Quote) (e : VError), e ≠ .noSupportedQuote →
      verifyLoop caps ak opts log l (some e) ≠ (none, some .noSupportedQuote) := by
  intro l
  induction l with
  | nil =>
    intro e hne hcontra
    simp only [verifyLoop, Prod.mk.injEq, Option.some.injEq, true_and] at hcontra
    exact hne hcontra
  | cons q rest ih =>
    intro e hne
    cases hv : caps.verifyQuote q ak opts.nonce with
    | error e2 =>
      simp only [verifyLoop, hv]
      exact ih _ (by intro h; cases h)
    | ok u =>
      cases u
      cases hp : caps.parseAndReplayEventLog log q.getPcrs with
      | error e2 =>
        simp only [verifyLoop, hv, hp]
        exact ih _ (by intro h; cases h)
      | ok st =>
        cases hh : checkHashAlgSupported q.getPcrs.getHash opts with
        | error e2 => simp only [verifyLoop, hv, hp, hh]; simp
        | ok u => cases u; simp only [verifyLoop, hv, hp, hh]; simp

/-- If the loop starts with no recorded error and returns the
no-supported-quote error, the candidate list was empty. -/
theorem verifyLoop_noSupportedQuote_nil (caps : Capabilities) (ak : PublicKey)
    (opts : VerifyOpts) (log : List Nat) :
    ∀ (l : List Quote),
      verifyLoop caps ak opts log l none = (none, some .noSupportedQuote) →
      l = [] := by
  intro l
  cases l with
  | nil => intro _; rfl
  | cons q rest =>
    intro hcontra
    exfalso
    cases hv : caps.verifyQuote q ak opts.nonce with
    | error e2 =>
      simp only [verifyLoop, hv] at hcontra
      exact verifyLoop_some_ne caps ak opts log rest _ (by intro h; cases h) hcontra
    | ok u =>
      cases u
      cases hp : caps.parseAndReplayEventLog log q.getPcrs with
      | error e2 =>
        simp only [verifyLoop, hv, hp] at hcontra
        exact verifyLoop_some_ne caps ak opts log rest _ (by intro h; cases h) hcontra
      | ok st =>
        cases hh : checkHashAlgSupported q.getPcrs.getHash opts with
        | error e2 => simp only [verifyLoop, hv, hp, hh] at hcontra; simp at hcontra
        | ok u => cases u; simp only [verifyLoop, hv, hp, hh] at hcontra; simp at hcontra

/-- Generalisation of the `supportedQuotes` double loop over the
accumulated output: it is a filterMap of first matches over the scanned
algorithm list. -/
theorem selector_foldl (quotes : List Quote) :
    ∀ (algs : List Algorithm) (acc : List Quote),
      algs.foldl
        (fun out alg =>
          match quotes.find? (fun quote => quote.getPcrs.getHash == alg) with
          | some q => out ++ [q]
          | none => out) acc
      = acc ++ algs.filterMap
          (fun alg => quotes.find? (fun q => q.getPcrs.getHash == alg)) := by
  intro algs
  induction algs with
  | nil => intro acc; simp
  | cons a algs ih =>
    intro acc
    rw [List.foldl_cons, List.filterMap_cons]
    cases hfa : quotes.find? (fun q => q.getPcrs.getHash == a) with
    | none => simp only [hfa]; rw [ih]
    | some q => simp only [hfa]; rw [ih]; simp

/-- The Go selector agrees with the specification's wording of it. -/
theorem supportedQuotes_eq_spec (quotes : List Quote) :
    supportedQuotes quotes = selectQuotesPerSpec quotes := by
  unfold supportedQuotes selectQuotesPerSpec
  rw [selector_foldl quotes supportedHashAlgs []]
  simp

/-- Scanning algorithms that avoid `a` selects no quote whose PCR bank uses
`a`. -/
theorem selector_countP_zero (quotes : List Quote) (a : Algorithm) :
    ∀ (algs : List Algorithm), a ∉ algs →
      ((algs.filterMap
          (fun alg => quotes.find? (fun q => q.getPcrs.getHash == alg))).countP
        (fun q => q.getPcrs.getHash == a)) = 0 := by
  intro algs
  induction algs with
  | nil => intro _; simp
  | cons b algs ih =>
    intro hmem
    rw [List.filterMap_cons]
    cases hfb : quotes.find? (fun q => q.getPcrs.getHash == b) with
    | none => exact ih (fun h => hmem (List.mem_cons_of_mem b h))
    | some q =>
      rw [List.countP_cons]
      have hfq := List.find?_some hfb
      have hqb : q.getPcrs.getHash = b := by simpa using hfq
      have hba : b ≠ a := fun h => hmem (h ▸ List.mem_cons_self b algs)
      have hne : (q.getPcrs.getHash == a) = false := by
        rw [hqb]
        exact beq_eq_false_iff_ne.mpr hba
      rw [hne]
      simpa using ih (fun h => hmem (List.mem_cons_of_mem b h))

/-- With pairwise-distinct scanned algorithms, at most one selected quote
matches any given algorithm. -/
theorem selector_countP_le_one (quotes : List Quote) (a : Algorithm) :
    ∀ (algs : List Algorithm), algs.Pairwise (· ≠ ·) →
      ((algs.filterMap
          (fun alg => quotes.find? (fun q => q.getPcrs.getHash == alg))).countP
        (fun q => q.getPcrs.getHash == a)) ≤ 1 := by
  intro algs
  induction algs with
  | nil => intro _; simp
  | cons b algs ih =>
    intro hpw
    obtain ⟨hb, hpw2⟩ := List.pairwise_cons.mp hpw
    rw [List.filterMap_cons]
    cases hfb : quotes.find? (fun q => q.getPcrs.getHash == b) with
    | none => exact ih hpw2
    | some q =>
      rw [List.countP_cons]
      have hfq := List.find?_some hfb
      have hqb : q.getPcrs.getHash = b := by simpa using hfq
      by_cases hab : b = a
      · subst hab
        have hz := selector_countP_zero quotes b algs (fun hmem => hb b hmem rfl)
        rw [hz]
        split <;> omega
      · have hne : (q.getPcrs.getHash == a) = false := by
          rw [hqb]
          exact beq_eq_false_iff_ne.mpr hab
        rw [hne]
        simpa using ih hpw2

/-- Every selected quote's PCR algorithm lies in the policy list. -/
theorem selector_mem (quotes : List Quote) (q : Quote)
    (hq : q ∈ selectQuotesPerSpec quotes) :
    q.getPcrs.getHash ∈ supportedHashAlgs := by
  unfold selectQuotesPerSpec at hq
  obtain ⟨alg, halg, hfind⟩ := List.mem_filterMap.mp hq
  have hfq := List.find?_some hfind
  have hqa : q.getPcrs.getHash = alg := by simpa using hfq
  rwa [hqa]

/-- The candidate loop returns either a state with no error or no state
with an error, for every candidate list and recorded error. -/
theorem verifyLoop_exclusive (caps : Capabilities) (ak : PublicKey)
    (opts : VerifyOpts) (log : List Nat) :
    ∀ (l : List Quote) (lastErr : Option VError),
      ((verifyLoop caps ak opts log l lastErr).1.isSome = true
        ∧ (verifyLoop caps ak opts log l lastErr).2 = none)
      ∨ ((verifyLoop caps ak opts log l lastErr).1 = none
        ∧ (verifyLoop caps ak opts log l lastErr).2.isSome = true) := by
  intro l
  induction l with
  | nil =>
    intro lastErr
    cases lastErr with
    | none => right; exact ⟨rfl, rfl⟩
    | some e => right; exact ⟨rfl, rfl⟩
  | cons q rest ih =>
    intro lastErr
    cases hv : caps.verifyQuote q ak opts.nonce with
    | error e =>
      simp only [verifyLoop, hv]
      exact ih _
    | ok u =>
      cases u
      cases hp : caps.parseAndReplayEventLog log q.getPcrs with
      | error e =>
        simp only [verifyLoop, hv, hp]
        exact ih _
      | ok st =>
        cases hh : checkHashAlgSupported q.getPcrs.getHash opts with
        | error e =>
          right
          simp [verifyLoop, hv, hp, hh]
        | ok u =>
          cases u
          left
          simp [verifyLoop, hv, hp, hh]

/-! The claims. -/

/-- C1: if a candidate quote passes the single-quote verifier and the log
replay but its PCR-bank hash algorithm fails the hash-algorithm policy,
the candidate loop of `VerifyAttestation` returns at once with that error
and tries no remaining candidate (the result does not depend on the
remaining candidates, even fully valid ones); and once the AK-stage checks
pass, `VerifyAttestation` is exactly this loop over the selected
candidates.  The selector admits only policy-approved PCR algorithms, so
this fatal branch is defensively unreachable from the top level. -/
theorem fatalPcrAlg_returns_immediately :
    (∀ (caps : Capabilities) (ak : PublicKey) (opts : VerifyOpts) (log : List Nat)
        (q : Quote) (rest : List Quote) (lastErr : Option VError)
        (st : MachineState) (e : HashAlgError),
      caps.verifyQuote q ak opts.nonce = .ok () →
      caps.parseAndReplayEventLog log q.getPcrs = .ok st →
      checkHashAlgSupported q.getPcrs.getHash opts = .error e →
      verifyLoop caps ak opts log (q :: rest) lastErr
        = (none, some (.whenVerifyingPcrs e)))
    ∧ (∀ (caps : Capabilities) (att : Attestation) (opts : VerifyOpts)
        (area : Nat) (k : PublicKey) (alg : Algorithm),
      caps.decodePublic att.akPub = .ok area →
      caps.pubAreaKey area = .ok k →
      checkAkTrusted k opts = .ok () →
      caps.getSigningHashAlg area = .ok alg →
      checkHashAlgSupported alg opts = .ok () →
      VerifyAttestation caps att opts
        = verifyLoop caps k opts att.eventLog (supportedQuotes att.quotes) none) := by
  constructor
  · intro caps ak opts log q rest lastErr st e hv hp hh
    simp only [verifyLoop, hv, hp, hh]
  · exact verifyAttestation_reaches_loop

/-- Witness for C1: a SHA1-bank quote that verifies and replays makes the
loop stop with the unsupported-algorithm error even though a fully valid
SHA-256 candidate follows it. -/
theorem fatalPcrAlg_returns_immediately_witness :
    verifyLoop okCaps (.rsa 5 3) demoOpts [3] [sha1Quote, sha256Quote] none
      = (none, some (.whenVerifyingPcrs (.unsupportedHashAlgorithm 4)))
    ∧ VerifyAttestation okCaps attTwoQuotes demoOpts
      = verifyLoop okCaps (.rsa 5 3) demoOpts attTwoQuotes.eventLog
          (supportedQuotes attTwoQuotes.quotes) none := by
  constructor
  · exact fatalPcrAlg_returns_immediately.1 okCaps (.rsa 5 3) demoOpts [3] sha1Quote
      [sha256Quote] none ⟨1⟩ (.unsupportedHashAlgorithm 4) rfl rfl rfl
  · exact fatalPcrAlg_returns_immediately.2 okCaps attTwoQuotes demoOpts 0 (.rsa 5 3)
      AlgSHA256 rfl rfl rfl rfl rfl

/-- C2: a candidate failing quote verification or log replay makes the
loop record that error and continue with the next candidate; with all
candidates exhausted the last recorded error alone is returned; and a
later candidate that fully verifies yields success despite earlier soft
failures. -/
theorem softFailures_continue :
    (∀ (caps : Capabilities) (ak : PublicKey) (opts : VerifyOpts) (log : List Nat)
        (q : Quote) (rest : List Quote) (lastErr : Option VError) (e : Nat),
      caps.verifyQuote q ak opts.nonce = .error e →
      verifyLoop caps ak opts log (q :: rest) lastErr
        = verifyLoop caps ak opts log rest (some (.failedToVerifyQuote e)))
    ∧ (∀ (caps : Capabilities) (ak : PublicKey) (opts : VerifyOpts) (log : List Nat)
        (q : Quote) (rest : List Quote) (lastErr : Option VError) (e : Nat),
      caps.verifyQuote q ak opts.nonce = .ok () →
      caps.parseAndReplayEventLog log q.getPcrs = .error e →
      verifyLoop caps ak opts log (q :: rest) lastErr
        = verifyLoop caps ak opts log rest (some (.failedToValidateEventLog e)))
    ∧ (∀ (caps : Capabilities) (ak : PublicKey) (opts : VerifyOpts) (log : List Nat)
        (e : VError),
      verifyLoop caps ak opts log [] (some e) = (none, some e))
    ∧ (∀ (caps : Capabilities) (ak : PublicKey) (opts : VerifyOpts) (log : List Nat)
        (pre : List Quote) (q : Quote) (rest : List Quote) (lastErr : Option VError)
        (st : MachineState),
      (∀ p ∈ pre, quoteSoftError caps ak opts log p ≠ none) →
      caps.verifyQuote q ak opts.nonce = .ok () →
      caps.parseAndReplayEventLog log q.getPcrs = .ok st →
      checkHashAlgSupported q.getPcrs.getHash opts = .ok () →
      verifyLoop caps ak opts log (pre ++ q :: rest) lastErr = (some st, none)) := by
  refine ⟨?_, ?_, ?_, ?_⟩
  · intro caps ak opts log q rest lastErr e hv
    simp only [verifyLoop, hv]
  · intro caps ak opts log q rest lastErr e hv hp
    simp only [verifyLoop, hv, hp]
  · intro caps ak opts log e
    simp only [verifyLoop]
  · intro caps ak opts log pre
    induction pre with
    | nil =>
      intro q rest lastErr st _ hv hp hh
      rw [List.nil_append]
      simp only [verifyLoop, hv, hp, hh]
    | cons p pre ih =>
      intro q rest lastErr st hall hv hp hh
      cases hps : quoteSoftError caps ak opts log p with
      | none => exact absurd hps (hall p (by simp))
      | some ep =>
        rw [List.cons_append, verifyLoop_soft_step caps ak opts log p _ lastErr ep hps]
        exact ih q rest (some ep) st (fun r hr => hall r (by simp [hr])) hv hp hh

/-- Witness for C2: under `mixedCaps` the SHA-512 quote soft-fails
verification, the SHA-384 quote soft-fails replay, the empty list returns
the recorded error, and the SHA-256 candidate after two soft failures
succeeds. -/
theorem softFailures_continue_witness :
    verifyLoop mixedCaps (.rsa 5 3) demoOpts [3] [sha512Quote, sha256Quote] none
      = verifyLoop mixedCaps (.rsa 5 3) demoOpts [3] [sha256Quote]
          (some (.failedToVerifyQuote 3))
    ∧ verifyLoop mixedCaps (.rsa 5 3) demoOpts [3] [sha384Quote] none
      = verifyLoop mixedCaps (.rsa 5 3) demoOpts [3] []
          (some (.failedToValidateEventLog 5))
    ∧ verifyLoop mixedCaps (.rsa 5 3) demoOpts [3] [] (some (.failedToVerifyQuote 3))
      = (none, some (.failedToVerifyQuote 3))
    ∧ verifyLoop mixedCaps (.rsa 5 3) demoOpts [3]
        ([sha512Quote, sha384Quote] ++ sha256Quote :: []) none
      = (some ⟨2⟩, none) := by
  refine ⟨?_, ?_, ?_, ?_⟩
  · exact softFailures_continue.1 mixedCaps (.rsa 5 3) demoOpts [3] sha512Quote
      [sha256Quote] none 3 rfl
  · exact softFailures_continue.2.1 mixedCaps (.rsa 5 3) demoOpts [3] sha384Quote
      [] none 5 rfl rfl
  · exact softFailures_continue.2.2.1 mixedCaps (.rsa 5 3) demoOpts [3]
      (.failedToVerifyQuote 3)
  · exact softFailures_continue.2.2.2 mixedCaps (.rsa 5 3) demoOpts [3]
      [sha512Quote, sha384Quote] sha256Quote [] none ⟨2⟩ (by decide) rfl rfl rfl

/-- C3: the selector returns, per policy algorithm in the preference order
SHA-512, SHA-384, SHA-256, the first input quote with that PCR-bank
algorithm, skipping algorithms with no match; quotes with out-of-policy
algorithms never appear; at most one quote per algorithm is returned; and
equal inputs give equal outputs. -/
theorem supportedQuotes_selector_spec :
    ∀ (quotes : List Quote),
      supportedQuotes quotes = selectQuotesPerSpec quotes
      ∧ (∀ q ∈ supportedQuotes quotes, q.getPcrs.getHash ∈ supportedHashAlgs)
      ∧ (∀ a : Algorithm,
          ((supportedQuotes quotes).countP (fun q => q.getPcrs.getHash == a)) ≤ 1)
      ∧ (∀ quotes2, quotes = quotes2 →
          supportedQuotes quotes = supportedQuotes quotes2) := by
  intro quotes
  refine ⟨supportedQuotes_eq_spec quotes, ?_, ?_, ?_⟩
  · intro q hq
    rw [supportedQuotes_eq_spec quotes] at hq
    exact selector_mem quotes q hq
  · intro a
    rw [supportedQuotes_eq_spec quotes]
    unfold selectQuotesPerSpec
    exact selector_countP_le_one quotes a supportedHashAlgs (by decide)
  · intro quotes2 h
    rw [h]

/-- Witness for C3 at a concrete quote list: SHA-256, SHA1 and SHA-512
quotes select to the SHA-512 and SHA-256 quotes in that order. -/
theorem supportedQuotes_selector_spec_witness :
    supportedQuotes [sha256Quote, sha1Quote, sha512Quote]
      = selectQuotesPerSpec [sha256Quote, sha1Quote, sha512Quote]
    ∧ sha512Quote.getPcrs.getHash ∈ supportedHashAlgs
    ∧ ((supportedQuotes [sha256Quote, sha1Quote, sha512Quote]).countP
        (fun q => q.getPcrs.getHash == AlgSHA256)) ≤ 1
    ∧ supportedQuotes [sha256Quote, sha1Quote, sha512Quote]
      = [sha512Quote, sha256Quote] := by
  obtain ⟨h1, h2, h3, _⟩ := supportedQuotes_selector_spec [sha256Quote, sha1Quote, sha512Quote]
  exact ⟨h1, h2 sha512Quote (by decide), h3 AlgSHA256, by decide⟩

/-- C4: when the decoded AK public key equals no trusted key,
`VerifyAttestation` fails with the untrusted-key error (its no-mechanism
variant when the trusted set is empty), and the result is the same
whatever quotes the attestation carries — no quote is examined. -/
theorem untrustedAk_fails :
    ∀ (caps : Capabilities) (att : Attestation) (opts : VerifyOpts) (area : Nat)
      (k : PublicKey),
      caps.decodePublic att.akPub = .ok area →
      caps.pubAreaKey area = .ok k →
      (∀ t ∈ opts.trustedAKs, pubKeysEqual k t = false) →
      VerifyAttestation caps att opts
        = (none, some (if opts.trustedAKs.length = 0
            then .noMechanismForAkVerification else .akPublicKeyNotTrusted))
      ∧ (∀ qs, VerifyAttestation caps { att with quotes := qs } opts
          = VerifyAttestation caps att opts) := by
  intro caps att opts area k hdec hkey hall
  have htr := checkAkTrusted_all_false k opts hall
  constructor
  · simp only [VerifyAttestation, hdec, hkey, htr]
  · intro qs
    simp only [VerifyAttestation, hdec, hkey, htr]

/-- Witness for C4: an AK outside the trusted set is rejected with the
not-trusted error, with quotes playing no role. -/
theorem untrustedAk_fails_witness :
    VerifyAttestation okCaps attTwoQuotes otherTrustOpts
      = (none, some (if otherTrustOpts.trustedAKs.length = 0
          then .noMechanismForAkVerification else .akPublicKeyNotTrusted))
    ∧ VerifyAttestation okCaps { attTwoQuotes with quotes := [] } otherTrustOpts
      = VerifyAttestation okCaps attTwoQuotes otherTrustOpts := by
  have h := untrustedAk_fails okCaps attTwoQuotes otherTrustOpts 0 (.rsa 5 3)
    rfl rfl (by decide)
  exact ⟨h.1, h.2 []⟩

/-- C5: an AK whose derived signing hash algorithm lies outside the policy
list makes `VerifyAttestation` fail with the in-AK-public-area
unsupported-algorithm error, and the result is the same whatever quotes
the attestation carries — no quote is examined. -/
theorem unsupportedSigningAlg_fails :
    ∀ (caps : Capabilities) (att : Attestation) (opts : VerifyOpts) (area : Nat)
      (k : PublicKey) (alg : Algorithm),
      caps.decodePublic att.akPub = .ok area →
      caps.pubAreaKey area = .ok k →
      checkAkTrusted k opts = .ok () →
      caps.getSigningHashAlg area = .ok alg →
      alg ∉ supportedHashAlgs →
      VerifyAttestation caps att opts
        = (none, some (.inAkPublicArea (.unsupportedHashAlgorithm alg)))
      ∧ (∀ qs, VerifyAttestation caps { att with quotes := qs } opts
          = (none, some (.inAkPublicArea (.unsupportedHashAlgorithm alg)))) := by
  intro caps att opts area k alg hdec hkey htr hsign hnm
  have halg := checkHashAlgSupported_not_mem alg opts hnm
  constructor
  · simp only [VerifyAttestation, hdec, hkey, htr, hsign, halg]
  · intro qs
    simp only [VerifyAttestation, hdec, hkey, htr, hsign, halg]

/-- Witness for C5: an AK with SHA1 signing hash is rejected before any
quote matters; both well-formed quotes are ignored. -/
theorem unsupportedSigningAlg_fails_witness :
    VerifyAttestation sha1SignCaps attTwoQuotes demoOpts
      = (none, some (.inAkPublicArea (.unsupportedHashAlgorithm 4)))
    ∧ VerifyAttestation sha1SignCaps { attTwoQuotes with quotes := [] } demoOpts
      = (none, some (.inAkPublicArea (.unsupportedHashAlgorithm 4))) := by
  have h := unsupportedSigningAlg_fails sha1SignCaps attTwoQuotes demoOpts 0 (.rsa 5 3)
    4 rfl rfl rfl rfl (by decide)
  exact ⟨h.1, h.2 []⟩

/-- C6 counterexample: with an empty trusted-key set and an AK public area
that fails to decode, `VerifyAttestation` fails with the decode error and
with neither untrusted-key error, so an empty trust set does not always
produce an untrusted-key error. -/
theorem emptyTrust_not_always_untrustedKey :
    emptyTrustOpts.trustedAKs = []
    ∧ VerifyAttestation failDecodeCaps attNoQuotes emptyTrustOpts
        = (none, some (.failedToDecodeAkPublicArea 7))
    ∧ (VerifyAttestation failDecodeCaps attNoQuotes emptyTrustOpts
        ≠ (none, some .noMechanismForAkVerification))
    ∧ (VerifyAttestation failDecodeCaps attNoQuotes emptyTrustOpts
        ≠ (none, some .akPublicKeyNotTrusted)) := by
  refine ⟨rfl, rfl, by decide, by decide⟩

/-- C6 amended: an empty trusted-key set never accepts — the result is
always a nil state with an error — and whenever the AK public area decodes
and yields a key, the error is exactly the untrusted-key (no-mechanism)
error. -/
theorem emptyTrust_never_accepts :
    ∀ (caps : Capabilities) (att : Attestation) (opts : VerifyOpts),
      opts.trustedAKs = [] →
      ((VerifyAttestation caps att opts).1 = none
        ∧ (VerifyAttestation caps att opts).2.isSome = true)
      ∧ (∀ (area : Nat) (k : PublicKey),
          caps.decodePublic att.akPub = .ok area →
          caps.pubAreaKey area = .ok k →
          VerifyAttestation caps att opts
            = (none, some .noMechanismForAkVerification)) := by
  intro caps att opts hempty
  constructor
  · cases hdec : caps.decodePublic att.akPub with
    | error e =>
      simp [VerifyAttestation, hdec]
    | ok area =>
      cases hkey : caps.pubAreaKey area with
      | error e =>
        simp [VerifyAttestation, hdec, hkey]
      | ok k =>
        have htr := checkAkTrusted_empty k opts hempty
        simp [VerifyAttestation, hdec, hkey, htr]
  · intro area k hdec hkey
    have htr := checkAkTrusted_empty k opts hempty
    simp only [VerifyAttestation, hdec, hkey, htr]

/-- Witness for the amended C6: with a decodable AK and an empty trusted
set the verifier rejects with the no-mechanism error. -/
theorem emptyTrust_never_accepts_witness :
    ((VerifyAttestation okCaps attNoQuotes emptyTrustOpts).1 = none
      ∧ (VerifyAttestation okCaps attNoQuotes emptyTrustOpts).2.isSome = true)
    ∧ VerifyAttestation okCaps attNoQuotes emptyTrustOpts
        = (none, some .noMechanismForAkVerification) := by
  have h := emptyTrust_never_accepts okCaps attNoQuotes emptyTrustOpts rfl
  exact ⟨h.1, h.2 0 (.rsa 5 3) rfl rfl⟩

/-- C7: under passing AK-stage checks, `VerifyAttestation` returns the
no-supported-quote error exactly when the selected candidate set is empty;
with a nonempty candidate set in which every candidate soft-fails, the
last candidate's recorded error is returned instead. -/
theorem noAcceptableQuote_iff_no_candidates :
    ∀ (caps : Capabilities) (att : Attestation) (opts : VerifyOpts) (area : Nat)
      (k : PublicKey) (alg : Algorithm),
      caps.decodePublic att.akPub = .ok area →
      caps.pubAreaKey area = .ok k →
      checkAkTrusted k opts = .ok () →
      caps.getSigningHashAlg area = .ok alg →
      checkHashAlgSupported alg opts = .ok () →
      ((VerifyAttestation caps att opts = (none, some .noSupportedQuote))
        ↔ supportedQuotes att.quotes = [])
      ∧ (∀ (pre : List Quote) (q : Quote) (e : VError),
          supportedQuotes att.quotes = pre ++ [q] →
          (∀ p ∈ pre, quoteSoftError caps k opts att.eventLog p ≠ none) →
          quoteSoftError caps k opts att.eventLog q = some e →
          VerifyAttestation caps att opts = (none, some e)) := by
  intro caps att opts area k alg hdec hkey htr hsign halg
  have hbridge := verifyAttestation_reaches_loop caps att opts area k alg
    hdec hkey htr hsign halg
  constructor
  · constructor
    · intro h
      rw [hbridge] at h
      exact verifyLoop_noSupportedQuote_nil caps k opts att.eventLog _ h
    · intro h
      rw [hbridge, h]
      simp only [verifyLoop]
  · intro pre q e hsel hall hq
    rw [hbridge, hsel]
    exact verifyLoop_all_soft caps k opts att.eventLog pre q none e hall hq

/-- Witness for C7: with no candidate the distinct error appears; with two
candidates that both soft-fail, the last candidate's error is returned. -/
theorem noAcceptableQuote_iff_no_candidates_witness :
    VerifyAttestation allFailCaps attNoQuotes demoOpts
      = (none, some .noSupportedQuote)
    ∧ VerifyAttestation allFailCaps attTwoQuotes demoOpts
      = (none, some (.failedToVerifyQuote 11)) := by
  have h0 := noAcceptableQuote_iff_no_candidates allFailCaps attNoQuotes demoOpts 0
    (.rsa 5 3) AlgSHA256 rfl rfl rfl rfl rfl
  have h2 := noAcceptableQuote_iff_no_candidates allFailCaps attTwoQuotes demoOpts 0
    (.rsa 5 3) AlgSHA256 rfl rfl rfl rfl rfl
  refine ⟨h0.1.mpr (by decide), h2.2 [sha512Quote] sha256Quote
    (.failedToVerifyQuote 11) (by decide) (by decide) (by decide)⟩

/-- C8: `VerifyAttestation` always returns exactly one of a present
machine state with a nil error, or a nil machine state with a present
error. -/
theorem verifyAttestation_exclusive :
    ∀ (caps : Capabilities) (att : Attestation) (opts : VerifyOpts),
      ((VerifyAttestation caps att opts).1.isSome = true
        ∧ (VerifyAttestation caps att opts).2 = none)
      ∨ ((VerifyAttestation caps att opts).1 = none
        ∧ (VerifyAttestation caps att opts).2.isSome = true) := by
  intro caps att opts
  cases hdec : caps.decodePublic att.akPub with
  | error e =>
    right
    simp [VerifyAttestation, hdec]
  | ok area =>
    cases hkey : caps.pubAreaKey area with
    | error e =>
      right
      simp [VerifyAttestation, hdec, hkey]
    | ok k =>
      cases htr : checkAkTrusted k opts with
      | error e =>
        right
        simp [VerifyAttestation, hdec, hkey, htr]
      | ok u =>
        cases u
        cases hsign : caps.getSigningHashAlg area with
        | error e =>
          right
          simp [VerifyAttestation, hdec, hkey, htr, hsign]
        | ok alg =>
          cases halg : checkHashAlgSupported alg opts with
          | error e =>
            right
            simp [VerifyAttestation, hdec, hkey, htr, hsign, halg]
          | ok u =>
            cases u
            rw [verifyAttestation_reaches_loop caps att opts area k alg
              hdec hkey htr hsign halg]
            exact verifyLoop_exclusive caps k opts att.eventLog _ none

/-- C9: the hash-algorithm policy check succeeds exactly on SHA-512,
SHA-384 and SHA-256, and its result does not depend on the options
argument. -/
theorem checkHashAlgSupported_policy :
    ∀ (h : Algorithm) (opts opts2 : VerifyOpts),
      (checkHashAlgSupported h opts = .ok ()
        ↔ (h = AlgSHA512 ∨ h = AlgSHA384 ∨ h = AlgSHA256))
      ∧ checkHashAlgSupported h opts = checkHashAlgSupported h opts2 := by
  intro h opts opts2
  constructor
  · rw [checkHashAlgSupported_ok_iff]
    simp [supportedHashAlgs]
  · rfl

/-- C10: a key of any family other than RSA or ECDSA equals no key at all
under `pubKeysEqual`, so `checkAkTrusted` rejects it whatever the trusted
set is, empty or not. -/
theorem otherKey_never_trusted :
    ∀ (tag : Nat) (k2 : PublicKey) (opts : VerifyOpts),
      pubKeysEqual (.other tag) k2 = false
      ∧ checkAkTrusted (.other tag) opts
          = .error (if opts.trustedAKs.length = 0
              then .noMechanismForAkVerification else .akPublicKeyNotTrusted) := by
  intro tag k2 opts
  exact ⟨rfl, checkAkTrusted_all_false (.other tag) opts (fun t _ => rfl)⟩

end Verify
